import Mathlib

/-!
# Verification of the glome-rs Maelstrom workload node programs

A shallow embedding of the data model and the workload handlers of the
glome-rs repository (Gossip Glomers / Maelstrom node programs written in
Rust), together with theorems settling the specification claims about them.

Modelling conventions:
* Rust `u64` values are modelled as `Nat`; overflow is modelled explicitly
  (via `%` or masking) exactly where the source wraps.
* Rust `HashMap` / `BTreeMap` values are modelled as association lists with
  replace-on-insert semantics; `HashSet` as duplicate-free insertion lists.
  All handler code iterates maps only where the result is order-independent
  or the source itself sorts, so the list order is a harmless determinization.
* Fallible code (a Rust `panic!` / `unreachable!`) is modelled by `Option`:
  `none` is a panic.
-/

namespace GlomeRs

/-! ## Association-list maps (Rust `HashMap`) and sets (Rust `HashSet`) -/

/-- `HashMap::get`: look up a key. -/
def alGet {K V : Type} [DecidableEq K] : List (K × V) → K → Option V
  | [], _ => none
  | (k1, v1) :: rest, k => if k1 = k then some v1 else alGet rest k

/-- `HashMap::insert`: insert a key, replacing any previous binding. -/
def alInsert {K V : Type} [DecidableEq K] : List (K × V) → K → V → List (K × V)
  | [], k, v => [(k, v)]
  | (k1, v1) :: rest, k, v =>
    if k1 = k then (k, v) :: rest else (k1, v1) :: alInsert rest k v

/-- `HashMap::remove`: drop a key's binding. -/
def alRemove {K V : Type} [DecidableEq K] : List (K × V) → K → List (K × V)
  | [], _ => []
  | (k1, v1) :: rest, k =>
    if k1 = k then rest else (k1, v1) :: alRemove rest k

/-- `HashMap::entry(k).or_insert(d)` / `or_default()`: return the stored value
(inserting the default if the key is absent) together with the updated map. -/
def alGetOrInsert {K V : Type} [DecidableEq K] (m : List (K × V)) (k : K) (d : V) :
    V × List (K × V) :=
  match alGet m k with
  | some v => (v, m)
  | none => (d, m ++ [(k, d)])

/-- `HashSet::insert`: returns whether the element was newly inserted,
together with the updated set. -/
def slInsert {A : Type} [DecidableEq A] (s : List A) (a : A) : Bool × List A :=
  if a ∈ s then (false, s) else (true, a :: s)

/-! ## Sorting (Rust `slice::sort`)

Rust `sort` is a stable sort; a stable sort's output is uniquely determined
by the comparator, so it is modelled by insertion sort. Rust compares
`String`s by their UTF-8 bytes, which orders exactly like the scalar-value
lexicographic order on the character lists. -/

/-- Insert into a sorted list (`List.orderedInsert` with a `Bool` comparator). -/
def sortInsert {A : Type} (le : A → A → Bool) (a : A) : List A → List A
  | [] => [a]
  | b :: bs => if le a b then a :: b :: bs else b :: sortInsert le a bs

/-- Insertion sort with a `Bool` comparator. -/
def sortBy {A : Type} (le : A → A → Bool) : List A → List A
  | [] => []
  | a :: as => sortInsert le a (sortBy le as)

/-- Lexicographic order on character lists by unicode scalar value. -/
def listLe : List Char → List Char → Bool
  | [], _ => true
  | _ :: _, [] => false
  | a :: as, b :: bs =>
    if a.val.toNat < b.val.toNat then true
    else if b.val.toNat < a.val.toNat then false
    else listLe as bs

/-- The string order used by Rust's `Vec<String>::sort`. -/
def strLe (a b : String) : Bool := listLe a.data b.data

/-! ## Wire model (`maelstrom/src/lib.rs`)

`ErrorCode` serializes as the listed integer discriminant. The `extra`
field of `Error` holds a `serde_json::Value` (external JSON); the code under
verification only ever constructs `None` there, so it is modelled as an
optional opaque string rendering. -/

inductive ErrorCode : Type
  | timeout
  | nodeNotFound
  | notSupported
  | temporarilyUnavailable
  | malformedMessage
  | crash
  | abort
  | keyDoesNotExist
  | keyAlreadyExists
  | preconditionFailed
  | txnConflict
  | other
deriving DecidableEq

/-- The integer wire value of each error code (the Rust enum discriminant). -/
def ErrorCode.code : ErrorCode → Nat
  | .timeout => 0
  | .nodeNotFound => 1
  | .notSupported => 10
  | .temporarilyUnavailable => 11
  | .malformedMessage => 12
  | .crash => 13
  | .abort => 14
  | .keyDoesNotExist => 20
  | .keyAlreadyExists => 21
  | .preconditionFailed => 22
  | .txnConflict => 30
  | .other => 999

/-- A transaction operation `(op, key, value)` as in the Rust
`Vec<(String, u64, Option<u64>)>`. -/
abbrev TxnOp := String × Nat × Option Nat

/-- A replicated TARCT write `(op, key, value, version)`. -/
abbrev TarctOp := String × Nat × Option Nat × Nat

/-- The body variants of `maelstrom::MessageBody` used by the verified
handlers (the full Rust enum has further request variants whose payloads the
handlers receive as explicit arguments here). -/
inductive MessageBody : Type
  | initOk (msg_id in_reply_to : Nat)
  | generateOk (msg_id in_reply_to idVal : Nat)
  | broadcastGossip (msg_id : Nat) (messages : List Nat)
  | addOk (msg_id in_reply_to : Nat)
  | counterGossip (msg_id : Nat) (counters : List (String × Nat × Nat))
  | sendOk (msg_id in_reply_to offset : Nat)
  | forwardSend (msg_id : Nat) (orig_src : String) (orig_msg_id : Nat)
      (key : String) (msg : Nat)
  | replicate (msg_id : Nat) (key : String) (msg offset : Nat)
  | replicateOk (msg_id in_reply_to offset : Nat)
  | txnOk (msg_id in_reply_to : Nat) (txn : List TxnOp)
  | tarutReplicate (msg_id : Nat) (txn : List TxnOp)
  | tarctReplicate (msg_id : Nat) (txn : List TarctOp)
  | error (msg_id in_reply_to : Nat) (code : ErrorCode) (text : Option String)
      (extra : Option String)
deriving DecidableEq

/-- `maelstrom::Message`: a single-hop envelope. -/
structure Message : Type where
  src : String
  dest : String
  body : MessageBody
deriving DecidableEq

/-- Whether a body is an `error` body. -/
def MessageBody.isError : MessageBody → Bool
  | .error .. => true
  | _ => false

/-- Whether a body is a `txn_ok` body. -/
def MessageBody.isTxnOk : MessageBody → Bool
  | .txnOk .. => true
  | _ => false

/-- Whether a body is a `tarct_replicate` body. -/
def MessageBody.isTarctReplicate : MessageBody → Bool
  | .tarctReplicate .. => true
  | _ => false

/-! ## Node runtime (`maelstrom/src/node.rs`) -/

/-- `maelstrom::node::Node`: identity, peer set and the msg-id counter. -/
structure Node : Type where
  id : String
  peers : List String
  msg_id : Nat
deriving DecidableEq

/-- `Node::new`. -/
def Node.new : Node := { id := "", peers := [], msg_id := 0 }

/-- `Node::handle_init`: set identity; peers are the other node ids in input
order (`retain(|p| p != &self.id)`). -/
def Node.handle_init (n : Node) (node_id : String) (node_ids : List String) : Node :=
  { n with id := node_id, peers := node_ids.filter (fun p => p ≠ node_id) }

/-- `Node::next_msg_id`: pre-increment and return the counter. -/
def Node.next_msg_id (n : Node) : Nat × Node :=
  (n.msg_id + 1, { n with msg_id := n.msg_id + 1 })

/-- `Node::reply`: wrap a body with `src = self.id`. -/
def Node.reply (n : Node) (dest : String) (body : MessageBody) : Message :=
  { src := n.id, dest := dest, body := body }

/-- `Node::init_ok`: the mandatory `init_ok` reply with a fresh msg id. -/
def Node.init_ok (n : Node) (dest : String) (in_reply_to : Nat) : Message × Node :=
  let (mid, n1) := n.next_msg_id
  ({ src := n1.id, dest := dest, body := .initOk mid in_reply_to }, n1)

/-! ## Per-key append log (`maelstrom/src/log.rs`) -/

namespace MLog

/-- `maelstrom::log::Log`: one append-only per-key log. `entries` is a
`BTreeMap<u64, u64>` in the source, modelled as an association list. -/
structure Log : Type where
  entries : List (Nat × Nat)
  next_offset : Nat
  committed : Nat
deriving DecidableEq

/-- `Log::new`. -/
def Log.new : Log := { entries := [], next_offset := 0, committed := 0 }

/-- `Log::append`: append a message, returning its offset. -/
def Log.append (l : Log) (msg : Nat) : Nat × Log :=
  (l.next_offset,
   { l with entries := alInsert l.entries l.next_offset msg,
            next_offset := l.next_offset + 1 })

/-- `Log::commit`: mark messages up through `offset` as committed; the
committed cursor only moves forward. -/
def Log.commit (l : Log) (offset : Nat) : Log :=
  if offset > l.committed then { l with committed := offset } else l

/-- `Log::committed_offset`. -/
def Log.committed_offset (l : Log) : Nat := l.committed

/-- `maelstrom::log::Logs`: the per-key map of logs. -/
structure Logs : Type where
  inner : List (String × Log)
deriving DecidableEq

/-- `Logs::new`. -/
def Logs.new : Logs := { inner := [] }

/-- `Logs::append` (via `get_or_create`): append to a key's log, creating it
if absent, and return the assigned offset. -/
def Logs.append (ls : Logs) (key : String) (msg : Nat) : Nat × Logs :=
  let l := (alGet ls.inner key).getD Log.new
  let (offset, l1) := l.append msg
  (offset, { inner := alInsert ls.inner key l1 })

/-- One iteration of the `Logs::commit_offsets` loop:
`if let Some(log) = inner.get_mut(&key) { log.commit(off) }`. -/
def commitStep (inn : List (String × Log)) (p : String × Nat) : List (String × Log) :=
  match alGet inn p.1 with
  | some l => alInsert inn p.1 (l.commit p.2)
  | none => inn

/-- `Logs::commit_offsets`: commit each requested `(key, off)` pair for the
keys already present in the map. -/
def Logs.commit_offsets (ls : Logs) (offsets : List (String × Nat)) : Logs :=
  { inner := offsets.foldl commitStep ls.inner }

/-- The committed offset recorded for a key in a raw log map (0 when the key
is absent, matching `Log::new`). -/
def committedL (inn : List (String × Log)) (key : String) : Nat :=
  match alGet inn key with
  | some l => l.committed
  | none => 0

/-- The committed offset currently recorded for a key. -/
def Logs.committedAt (ls : Logs) (key : String) : Nat :=
  committedL ls.inner key

/-- Modelled from the spec: `Logs::append_local`, called by the multi-node
kafka leader ("append locally, obtain `offset`"), is absent from the source
tree; it is the per-key append returning the new offset, i.e. `Logs::append`. -/
def Logs.append_local (ls : Logs) (key : String) (msg : Nat) : Nat × Logs :=
  ls.append key msg

/-- Modelled from the spec: `Logs::insert_at`, called by multi-node kafka
followers ("insert the `(offset, msg)` into the key's log at that exact
offset (not append)"), is absent from the source tree. -/
def Logs.insert_at (ls : Logs) (key : String) (offset msg : Nat) : Logs :=
  let l := (alGet ls.inner key).getD Log.new
  { inner := alInsert ls.inner key { l with entries := alInsert l.entries offset msg } }

end MLog

/-! ## Legacy log of the original kafka workload (`maelstrom/src/lib.rs`) -/

namespace Legacy

/-- `maelstrom::LogEntry`. -/
structure LogEntry : Type where
  offset : Nat
  msg : Nat
deriving DecidableEq

/-- `maelstrom::Log` (lib.rs): the log used by the `kafka` workload binary. -/
structure Log : Type where
  log : List (String × List LogEntry)
  commits : List (String × Nat)
  offsets : List (String × Nat)
deriving DecidableEq

/-- `Log::new` (lib.rs). -/
def Log.new : Log := { log := [], commits := [], offsets := [] }

/-- `Log::set_commit_offsets` (lib.rs): `self.commits.extend(keys_and_offsets)`
— every requested key's committed offset is overwritten with the requested
value, with no comparison against the current one. -/
def Log.set_commit_offsets (l : Log) (keys_and_offsets : List (String × Nat)) : Log :=
  { l with commits := keys_and_offsets.foldl (fun m p => alInsert m p.1 p.2) l.commits }

end Legacy

/-! ## Multi-node kafka (`multi_node_kafka/src/node.rs`) -/

namespace Kafka

/-- `Pending`: leader-side record for one replication offset. The Rust field
`from` (a `HashSet<String>` seeded with the leader) is named `from_` because
`from` is reserved in Lean. -/
structure Pending : Type where
  client : String
  client_msg_id : Nat
  acks : Nat
  from_ : List String
deriving DecidableEq

/-- `KafkaNode`. -/
structure KafkaNode : Type where
  leader : String
  next_offset : Nat
  logs : MLog.Logs
  pendings : List (Nat × Pending)
deriving DecidableEq

/-- `KafkaNode::new`. -/
def KafkaNode.new : KafkaNode :=
  { leader := "", next_offset := 0, logs := MLog.Logs.new, pendings := [] }

/-- Rust `u64::div_ceil`. -/
def divCeil (a b : Nat) : Nat :=
  a / b + if a % b = 0 then 0 else 1

/-- `KafkaNode::quorum`: `peers.len().div_ceil(2) + 1`. -/
def KafkaNode.quorum (_st : KafkaNode) (node : Node) : Nat :=
  divCeil node.peers.length 2 + 1

/-- `KafkaNode::handle_init`: initialize the runtime node and elect the
lexicographically least node id as leader (`all.sort(); leader = all[0]`).
The Rust indexing `all[0]` panics on an empty `node_ids`; the model returns
`""` there (the claims below always supply a non-empty list). -/
def KafkaNode.handle_init (st : KafkaNode) (node : Node) (node_id : String)
    (node_ids : List String) : KafkaNode × Node :=
  let node1 := node.handle_init node_id node_ids
  let all := sortBy strLe node_ids
  ({ st with leader := all.headD "" }, node1)

/-- `KafkaNode::handle_send`: a non-leader forwards to the leader and stops;
the leader appends, records a `Pending` seeded with its own ack, broadcasts
`replicate` to every peer, and acks the client immediately when the quorum
is 1. -/
def KafkaNode.handle_send (st : KafkaNode) (node : Node) (message : Message)
    (msg_id : Nat) (key : String) (msg : Nat) : List Message × KafkaNode × Node :=
  if node.id ≠ st.leader then
    let (mid, node1) := node.next_msg_id
    ([{ src := node.id, dest := st.leader,
        body := .forwardSend mid message.src msg_id key msg }], st, node1)
  else
    let (offset, logs1) := st.logs.append_local key msg
    let st1 : KafkaNode :=
      { st with logs := logs1, next_offset := offset + 1,
                pendings := alInsert st.pendings offset
                  { client := message.src, client_msg_id := msg_id, acks := 1,
                    from_ := [node.id] } }
    let (reps, node1) :=
      node.peers.foldl
        (fun (acc : List Message × Node) peer =>
          let (mid, n2) := acc.2.next_msg_id
          (acc.1 ++ [{ src := n2.id, dest := peer, body := .replicate mid key msg offset }],
           n2))
        ([], node)
    if st1.quorum node1 ≤ 1 then
      let (mid, node2) := node1.next_msg_id
      (reps ++ [{ src := node.id, dest := message.src, body := .sendOk mid msg_id offset }],
       { st1 with pendings := alRemove st1.pendings offset }, node2)
    else
      (reps, st1, node1)

/-- The `ReplicateOk` arm of `KafkaNode::handle`: bump the ack count only on
the first ack from this source; at quorum, reply `send_ok` to the recorded
client and drop the `Pending` entry. -/
def KafkaNode.handle_replicate_ok (st : KafkaNode) (node : Node) (src : String)
    (offset : Nat) : List Message × KafkaNode × Node :=
  let quorum := st.quorum node
  match alGet st.pendings offset with
  | none => ([], st, node)
  | some p =>
    let (newlyInserted, from1) := slInsert p.from_ src
    if newlyInserted then
      let p1 : Pending := { p with from_ := from1, acks := p.acks + 1 }
      if p1.acks ≥ quorum then
        let (mid, node1) := node.next_msg_id
        ([node1.reply p.client (.sendOk mid p.client_msg_id offset)],
         { st with pendings := alRemove st.pendings offset }, node1)
      else
        ([], { st with pendings := alInsert st.pendings offset p1 }, node)
    else
      ([], st, node)

end Kafka

/-! ## Transactional KV, read committed with OCC (`tarct/src/node.rs`) -/

namespace Tarct

/-- `tarct::KV`: committed values plus the commit-timestamp version of each
key's last write. -/
structure KV : Type where
  entries : List (Nat × Option Nat)
  versions : List (Nat × Nat)
deriving DecidableEq

/-- `KV::new`. -/
def KV.new : KV := { entries := [], versions := [] }

/-- `KV::get`: the committed value (`None` if absent or deleted). -/
def KV.get (kv : KV) (key : Nat) : Option Nat :=
  (alGet kv.entries key).getD none

/-- `KV::version`: the commit timestamp of a key, 0 if never written. -/
def KV.version (kv : KV) (key : Nat) : Nat :=
  (alGet kv.versions key).getD 0

/-- `KV::apply`: install a committed write only when its version is strictly
newer than the local one. -/
def KV.apply (kv : KV) (key : Nat) (val : Option Nat) (version : Nat) : KV :=
  if version > kv.version key then
    { entries := alInsert kv.entries key val, versions := alInsert kv.versions key version }
  else
    kv

/-- `KV::merge_batch`. -/
def KV.merge_batch (kv : KV) (writes : List (Nat × Option Nat × Nat)) : KV :=
  writes.foldl (fun acc w => acc.apply w.1 w.2.1 w.2.2) kv

/-- `TarctNode`. -/
structure TarctNode : Type where
  kv : KV
  commit_ts : Nat
deriving DecidableEq

/-- `TarctNode::new`. -/
def TarctNode.new : TarctNode := { kv := KV.new, commit_ts := 0 }

/-- The op-execution loop of `TarctNode::handle_tx`: stage a read set and a
write set against the (unchanged) committed store. Reads consult the write
set first, then the store, and record the key's current committed version;
writes touch only the write set. An op other than `"r"` / `"w"` hits
`unreachable!` in the source — a panic, modelled as `none`. -/
def stageOps (kv : KV) :
    List TxnOp → List (Nat × Nat) → List (Nat × Option Nat) → List TxnOp →
    Option (List (Nat × Nat) × List (Nat × Option Nat) × List TxnOp)
  | [], read_set, write_set, results => some (read_set, write_set, results)
  | (op, key, opt_val) :: rest, read_set, write_set, results =>
    if op = "r" then
      let val := (alGet write_set key).getD (kv.get key)
      let version := kv.version key
      stageOps kv rest (alInsert read_set key version) write_set
        (results ++ [("r", key, val)])
    else if op = "w" then
      stageOps kv rest read_set (alInsert write_set key opt_val)
        (results ++ [("w", key, opt_val)])
    else
      none

/-- One iteration of the replication loop of `TarctNode::handle_tx`:
push a `tarct_replicate` for one peer, consuming a msg id. -/
def replicaStep (ops : List TarctOp) (acc : List Message × Node) (peer : String) :
    List Message × Node :=
  let (mid, n2) := acc.2.next_msg_id
  (acc.1 ++ [{ src := n2.id, dest := peer, body := .tarctReplicate mid ops }], n2)

/-- The replication loop of `TarctNode::handle_tx`: one `tarct_replicate`
per peer, in peer order. -/
def sendReplicas (ops : List TarctOp) (node : Node) : List Message × Node :=
  node.peers.foldl (replicaStep ops) ([], node)

/-- The remainder of `TarctNode::handle_tx` after staging: the optimistic
conflict check against the current committed versions, then — when it
passes — commit (bump `commit_ts`, install the write set), replicate the
key-sorted write batch to every peer, and reply `txn_ok`; when it fails,
reply a single `error` with code `TxnConflict` and change nothing. -/
def commitPhase (st : TarctNode) (node : Node) (src : String) (msg_id : Nat)
    (read_set : List (Nat × Nat)) (write_set : List (Nat × Option Nat))
    (results : List TxnOp) : List Message × TarctNode × Node :=
  if read_set.all (fun p => st.kv.version p.1 = p.2) then
    let (st1, replicas, node1) :=
      if write_set ≠ [] then
        let this_ts := st.commit_ts + 1
        let kv1 := write_set.foldl (fun acc p => acc.apply p.1 p.2 this_ts) st.kv
        let replicate_ops : List TarctOp :=
          sortBy (fun a b => decide (a.2.1 ≤ b.2.1))
            (write_set.map (fun p => ("w", p.1, p.2, this_ts)))
        let (reps, node1) := sendReplicas replicate_ops node
        ({ kv := kv1, commit_ts := this_ts }, reps, node1)
      else
        (st, [], node)
    let (mid, node2) := node1.next_msg_id
    (replicas ++ [{ src := node.id, dest := src, body := .txnOk mid msg_id results }],
     st1, node2)
  else
    let (mid, node1) := node.next_msg_id
    ([{ src := node.id, dest := src,
        body := .error mid msg_id .txnConflict
          (some "Transaction aborted. Conflict detected") none }],
     st, node1)

/-- `TarctNode::handle_tx` = staging followed by the conflict-check /
commit / replicate / reply phase. `none` is the `unreachable!` panic on an
unknown op string. -/
def TarctNode.handle_tx (st : TarctNode) (node : Node) (src : String)
    (msg_id : Nat) (txn : List TxnOp) : Option (List Message × TarctNode × Node) :=
  match stageOps st.kv txn [] [] [] with
  | none => none
  | some (read_set, write_set, results) =>
    some (commitPhase st node src msg_id read_set write_set results)

end Tarct

/-! ## Transactional KV, read uncommitted (`tarut/src/node.rs`) -/

namespace Tarut

/-- `TarutNode`: the unversioned last-writer-wins store. -/
structure TarutNode : Type where
  entries : List (Nat × Option Nat)
deriving DecidableEq

/-- `TarutNode::new`. -/
def TarutNode.new : TarutNode := { entries := [] }

/-- `TarutNode::process_txn`: apply reads and writes in order against the
live store; an op other than `"r"` / `"w"` is silently skipped (`_ => {}`). -/
def TarutNode.process_txn (st : TarutNode) (txn : List TxnOp) :
    List TxnOp × TarutNode :=
  txn.foldl
    (fun (acc : List TxnOp × TarutNode) op =>
      if op.1 = "r" then
        (acc.1 ++ [("r", op.2.1, (alGet acc.2.entries op.2.1).getD none)], acc.2)
      else if op.1 = "w" then
        (acc.1 ++ [("w", op.2.1, op.2.2)],
         { entries := alInsert acc.2.entries op.2.1 op.2.2 })
      else
        acc)
    ([], st)

end Tarut

/-! ## Grow-only counter (`grow_only_counter/src/node.rs`, `maelstrom/src/kv.rs`) -/

namespace GCounter

/-- `maelstrom::kv::Counter` (`Default` gives `{version: 0, value: 0}`). -/
structure Counter : Type where
  version : Nat
  value : Nat
deriving DecidableEq

/-- `Counter::default()`. -/
def Counter.default : Counter := { version := 0, value := 0 }

/-- `maelstrom::kv::KV`: the per-node version-vector store. -/
structure KV : Type where
  counters : List (String × Counter)
deriving DecidableEq

/-- `KV::new`. -/
def KV.new : KV := { counters := [] }

/-- `KV::init`: start from a fresh map and insert a default counter for every
cluster node. -/
def KV.init (_kv : KV) (node_ids : List String) : KV :=
  { counters := node_ids.foldl (fun m nid => alInsert m nid Counter.default) [] }

/-- `GrowOnlyCounterNode`. -/
structure GrowOnlyCounterNode : Type where
  kv : KV
deriving DecidableEq

/-- `GrowOnlyCounterNode::new`. -/
def GrowOnlyCounterNode.new : GrowOnlyCounterNode := { kv := KV.new }

/-- The `Init` arm of `GrowOnlyCounterNode::handle`: it initializes the
runtime node and replies `init_ok`; the workload `kv` is not touched by
this arm. -/
def GrowOnlyCounterNode.handle_init_msg (st : GrowOnlyCounterNode) (node : Node)
    (src : String) (msg_id : Nat) (node_id : String) (node_ids : List String) :
    List Message × GrowOnlyCounterNode × Node :=
  let node1 := node.handle_init node_id node_ids
  let (m, node2) := node1.init_ok src msg_id
  ([m], st, node2)

end GCounter

/-! ## Multi-node broadcast (`multi_node_broadcast/src/node.rs`) -/

namespace MNBroadcast

/-- `MultiNodeBroadcastNode`: the message set, the gossip overlay chosen at
init, and the per-peer believed-known sets. -/
structure MultiNodeBroadcastNode : Type where
  messages : List Nat
  gossip_peers : List String
  peer_seen : List (String × List Nat)
deriving DecidableEq

/-- `MultiNodeBroadcastNode::new`. -/
def MultiNodeBroadcastNode.new : MultiNodeBroadcastNode :=
  { messages := [], gossip_peers := [], peer_seen := [] }

/-- One iteration of the `MultiNodeBroadcastNode::gossip` loop: look up (or
default-create, via `entry(..).or_default()`) the peer's believed-known set,
compute the bounded delta, and push a `broadcast_gossip` when the delta is
non-empty. -/
def gossipStep (acc : List Message × MultiNodeBroadcastNode × Node) (peer : String) :
    List Message × MultiNodeBroadcastNode × Node :=
  let (seen, ps1) := alGetOrInsert acc.2.1.peer_seen peer []
  let delta := (acc.2.1.messages.filter (fun m => !(seen.contains m))).take 1024
  let st2 := { acc.2.1 with peer_seen := ps1 }
  if delta = [] then
    (acc.1, st2, acc.2.2)
  else
    let (mid, node2) := acc.2.2.next_msg_id
    (acc.1 ++ [{ src := node2.id, dest := peer, body := .broadcastGossip mid delta }],
     st2, node2)

/-- `MultiNodeBroadcastNode::gossip` (one periodic tick): for each gossip
peer, compute the delta of the message set against `peer_seen`, bound it to
1024 entries, and send it as `broadcast_gossip` when non-empty. -/
def MultiNodeBroadcastNode.gossip (st : MultiNodeBroadcastNode) (node : Node) :
    List Message × MultiNodeBroadcastNode × Node :=
  if node.id = "" ∨ st.gossip_peers = [] ∨ st.messages = [] then
    ([], st, node)
  else
    st.gossip_peers.foldl gossipStep ([], st, node)

/-- `MultiNodeBroadcastNode::handle_broadcast_gossip_from`: insert every
received id into the message set and into the sender's believed-known set. -/
def MultiNodeBroadcastNode.handle_broadcast_gossip_from
    (st : MultiNodeBroadcastNode) (peer : String) (messages : List Nat) :
    MultiNodeBroadcastNode :=
  let (seen, ps1) := alGetOrInsert st.peer_seen peer []
  let (msgs1, seen1) :=
    messages.foldl
      (fun (acc : List Nat × List Nat) m => ((slInsert acc.1 m).2, (slInsert acc.2 m).2))
      (st.messages, seen)
  { st with messages := msgs1, peer_seen := alInsert ps1 peer seen1 }

end MNBroadcast

/-! ## Unique-id generator (`uniqueids/src/node.rs`) -/

namespace UniqueIds

/-- `TIME_BITS` = 42, `NODE_BITS` = 10, `SEQ_BITS` = 12. -/
def TIME_BITS : Nat := 42
def NODE_BITS : Nat := 10
def SEQ_BITS : Nat := 12

/-- `TIME_MASK = (1 << TIME_BITS) - 1`. -/
def TIME_MASK : Nat := 2 ^ TIME_BITS - 1

/-- `IdGen`: `seq` is a `u16` in the source, modelled as a `Nat` kept below
`2 ^ 16` by the wrapping addition. -/
structure IdGen : Type where
  node_bits : Nat
  last_ms : Nat
  seq : Nat
deriving DecidableEq

/-- `IdGen::new`: the node hash is `xxh3_64(node_id)` from the external
`xxhash_rust` crate, taken here as a parameter; the source masks it to
`NODE_BITS` bits. -/
def IdGen.new (node_hash : Nat) : IdGen :=
  { node_bits := node_hash &&& (2 ^ NODE_BITS - 1), last_ms := 0, seq := 0 }

/-- The id layout `(ts << 22) | (node_bits << 12) | seq`. -/
def mkId (ts node_bits seq : Nat) : Nat :=
  (ts <<< (NODE_BITS + SEQ_BITS)) ||| (node_bits <<< SEQ_BITS) ||| seq

/-- `IdGen::generate` at a given current wall-clock millisecond: mask the
timestamp to 42 bits, reset the sequence on a fresh millisecond and
`u16::wrapping_add(1)` it on a repeated one, then pack the id. -/
def IdGen.generate (g : IdGen) (now_ms : Nat) : Nat × IdGen :=
  let ts := now_ms &&& TIME_MASK
  if ts = g.last_ms then
    let seq := (g.seq + 1) % 2 ^ 16
    (mkId ts g.node_bits seq, { g with seq := seq })
  else
    (mkId ts g.node_bits 0, { g with last_ms := ts, seq := 0 })

/-- The ids of `n` successive `generate` calls, all at the same wall-clock
millisecond `t`. -/
def idsAfterBurst (g : IdGen) (t : Nat) : Nat → List Nat
  | 0 => []
  | n + 1 =>
    let (idVal, g1) := g.generate t
    idVal :: idsAfterBurst g1 t n

end UniqueIds

/-! # Theorems

General lemmas about the container model first, then one theorem per
specification claim (with its witness or counterexample). -/

/-! ## Association-list and set lemmas -/

theorem alGet_alInsert {K V : Type} [DecidableEq K] (m : List (K × V)) (k : K) (v : V)
    (k2 : K) : alGet (alInsert m k v) k2 = if k = k2 then some v else alGet m k2 := by
  induction m with
  | nil => by_cases h : k = k2 <;> simp [alInsert, alGet, h]
  | cons hd rest ih =>
    obtain ⟨k1, v1⟩ := hd
    by_cases hk : k1 = k
    · subst hk
      by_cases h2 : k1 = k2 <;> simp [alInsert, alGet, h2]
    · by_cases h2 : k1 = k2
      · subst h2
        have hne : ¬k = k1 := fun h => hk h.symm
        simp [alInsert, alGet, hk, hne]
      · simp [alInsert, alGet, hk, h2, ih]

theorem alGet_alInsert_self {K V : Type} [DecidableEq K] (m : List (K × V)) (k : K)
    (v : V) : alGet (alInsert m k v) k = some v := by
  simp [alGet_alInsert]

theorem alGet_alInsert_ne {K V : Type} [DecidableEq K] (m : List (K × V)) (k : K)
    (v : V) (k2 : K) (h : k ≠ k2) : alGet (alInsert m k v) k2 = alGet m k2 := by
  simp [alGet_alInsert, h]

theorem mem_alInsert {K V : Type} [DecidableEq K] (m : List (K × V)) (k : K) (v : V)
    (p : K × V) (hp : p ∈ alInsert m k v) : p = (k, v) ∨ p ∈ m := by
  induction m with
  | nil => simpa [alInsert] using hp
  | cons hd rest ih =>
    obtain ⟨k1, v1⟩ := hd
    by_cases hk : k1 = k
    · subst hk
      simp only [alInsert, if_true, eq_self_iff_true, List.mem_cons] at hp
      rcases hp with heq | hmem
      · exact Or.inl heq
      · exact Or.inr (List.mem_cons_of_mem _ hmem)
    · simp only [alInsert, if_neg hk, List.mem_cons] at hp
      rcases hp with heq | hmem
      · exact Or.inr (List.mem_cons.mpr (Or.inl heq))
      · rcases ih hmem with h1 | h1
        · exact Or.inl h1
        · exact Or.inr (List.mem_cons_of_mem _ h1)

theorem alGet_append_single {K V : Type} [DecidableEq K] (m : List (K × V)) (k : K)
    (d : V) (k2 : K) :
    alGet (m ++ [(k, d)]) k2 =
      match alGet m k2 with
      | some v => some v
      | none => if k = k2 then some d else none := by
  induction m with
  | nil => simp [alGet]
  | cons hd rest ih =>
    obtain ⟨k1, v1⟩ := hd
    by_cases h : k1 = k2
    · simp [alGet, h]
    · simp [alGet, h, ih]

theorem alGet_alGetOrInsert {K V : Type} [DecidableEq K] (m : List (K × V)) (k : K)
    (d : V) (k2 : K) :
    alGet (alGetOrInsert m k d).2 k2 =
      if k = k2 then some ((alGet m k).getD d) else alGet m k2 := by
  unfold alGetOrInsert
  cases hg : alGet m k with
  | some v =>
    by_cases h : k = k2
    · subst h; simp [hg]
    · simp [h]
  | none =>
    simp only [alGet_append_single]
    by_cases h : k = k2
    · subst h
      cases h2 : alGet m k <;> simp_all
    · cases h2 : alGet m k2 <;> simp [h2, h, hg]

/-! ## Sorting lemmas -/

theorem listLe_refl (l : List Char) : listLe l l = true := by
  induction l with
  | nil => rfl
  | cons a as ih => simp [listLe, ih]

theorem listLe_total (a b : List Char) : listLe a b = true ∨ listLe b a = true := by
  induction a generalizing b with
  | nil => left; rfl
  | cons x xs ih =>
    cases b with
    | nil => right; rfl
    | cons y ys =>
      rcases Nat.lt_trichotomy x.val.toNat y.val.toNat with h | h | h
      · left; simp [listLe, h]
      · have hxy : ¬x.val.toNat < y.val.toNat := by omega
        have hyx : ¬y.val.toNat < x.val.toNat := by omega
        rcases ih ys with h1 | h1
        · left; simp [listLe, hxy, hyx, h1]
        · right; simp [listLe, hxy, hyx, h1]
      · right; simp [listLe, h]

theorem listLe_trans (a b c : List Char) (h1 : listLe a b = true)
    (h2 : listLe b c = true) : listLe a c = true := by
  induction a generalizing b c with
  | nil => rfl
  | cons x xs ih =>
    cases b with
    | nil => simp [listLe] at h1
    | cons y ys =>
      cases c with
      | nil => simp [listLe] at h2
      | cons z zs =>
        simp only [listLe] at h1 h2 ⊢
        split_ifs at h1 h2 ⊢ <;>
          first
            | rfl
            | exact ih ys zs h1 h2
            | omega

theorem strLe_refl (a : String) : strLe a a = true := listLe_refl a.data

theorem strLe_total (a b : String) : strLe a b = true ∨ strLe b a = true :=
  listLe_total a.data b.data

theorem strLe_trans (a b c : String) (h1 : strLe a b = true) (h2 : strLe b c = true) :
    strLe a c = true :=
  listLe_trans a.data b.data c.data h1 h2

theorem mem_sortInsert {A : Type} (le : A → A → Bool) (a x : A) (l : List A) :
    x ∈ sortInsert le a l ↔ x = a ∨ x ∈ l := by
  induction l with
  | nil => simp [sortInsert]
  | cons b bs ih =>
    by_cases h : le a b = true
    · simp only [sortInsert, if_pos h, List.mem_cons]
    · simp only [sortInsert, if_neg h, List.mem_cons, ih]
      tauto

theorem mem_sortBy {A : Type} (le : A → A → Bool) (x : A) (l : List A) :
    x ∈ sortBy le l ↔ x ∈ l := by
  induction l with
  | nil => simp [sortBy]
  | cons a as ih => simp [sortBy, mem_sortInsert, ih]

theorem pairwise_sortInsert {A : Type} (le : A → A → Bool)
    (htotal : ∀ u v, le u v = true ∨ le v u = true)
    (htrans : ∀ u v w, le u v = true → le v w = true → le u w = true)
    (a : A) (l : List A) (hl : l.Pairwise (fun u v => le u v = true)) :
    (sortInsert le a l).Pairwise (fun u v => le u v = true) := by
  induction l with
  | nil => simp [sortInsert]
  | cons b bs ih =>
    rcases List.pairwise_cons.mp hl with ⟨hb, hbs⟩
    by_cases h : le a b = true
    · rw [sortInsert, if_pos h]
      refine List.pairwise_cons.mpr ⟨?_, hl⟩
      intro y hy
      rcases List.mem_cons.mp hy with rfl | hy2
      · exact h
      · exact htrans a b y h (hb y hy2)
    · rw [sortInsert, if_neg h]
      have hba : le b a = true := (htotal a b).resolve_left h
      refine List.pairwise_cons.mpr ⟨?_, ih hbs⟩
      intro y hy
      rcases (mem_sortInsert le a y bs).mp hy with rfl | hy2
      · exact hba
      · exact hb y hy2

theorem pairwise_sortBy {A : Type} (le : A → A → Bool)
    (htotal : ∀ u v, le u v = true ∨ le v u = true)
    (htrans : ∀ u v w, le u v = true → le v w = true → le u w = true)
    (l : List A) : (sortBy le l).Pairwise (fun u v => le u v = true) := by
  induction l with
  | nil => simp [sortBy]
  | cons a as ih => exact pairwise_sortInsert le htotal htrans a (sortBy le as) ih

theorem sortBy_ne_nil {A : Type} (le : A → A → Bool) (a : A) (l : List A) :
    sortBy le (a :: l) ≠ [] := by
  intro h
  have : a ∈ sortBy le (a :: l) := (mem_sortBy le a (a :: l)).mpr (List.mem_cons_self a l)
  rw [h] at this
  simp at this

theorem sortBy_headD_min {A : Type} (le : A → A → Bool)
    (htotal : ∀ u v, le u v = true ∨ le v u = true)
    (htrans : ∀ u v w, le u v = true → le v w = true → le u w = true)
    (hrefl : ∀ u, le u u = true)
    (l : List A) (hne : l ≠ []) (d : A) :
    (sortBy le l).headD d ∈ l ∧ ∀ x ∈ l, le ((sortBy le l).headD d) x = true := by
  obtain ⟨a, as, rfl⟩ := List.exists_cons_of_ne_nil hne
  cases hs : sortBy le (a :: as) with
  | nil => exact absurd hs (sortBy_ne_nil le a as)
  | cons h0 t =>
    have hmem : h0 ∈ sortBy le (a :: as) := by rw [hs]; exact List.mem_cons_self h0 t
    refine ⟨(mem_sortBy le h0 (a :: as)).mp hmem, ?_⟩
    intro x hx
    have hx2 : x ∈ h0 :: t := by
      rw [← hs]
      exact (mem_sortBy le x (a :: as)).mpr hx
    have hp := pairwise_sortBy le htotal htrans (a :: as)
    rw [hs] at hp
    rcases List.mem_cons.mp hx2 with rfl | hxt
    · simp [hrefl]
    · simpa using (List.pairwise_cons.mp hp).1 x hxt

theorem mem_slInsert {A : Type} [DecidableEq A] (s : List A) (a x : A) :
    x ∈ (slInsert s a).2 ↔ x = a ∨ x ∈ s := by
  unfold slInsert
  by_cases h : a ∈ s
  · simp only [if_pos h]
    constructor
    · exact Or.inr
    · rintro (rfl | hx)
      · exact h
      · exact hx
  · simp [if_neg h]

/-! ## C1: quorum of the multi-node kafka node -/

/-- C1 counterexample: in a cluster of N = 3 nodes (so `peers` has 2
elements) the computed quorum is 2, not the claimed `⌈N/2⌉ + 1 = 3`; the
claimed closed formula contradicts the claim's own listed values. -/
theorem quorum_claim_cex :
    ¬ Kafka.KafkaNode.quorum Kafka.KafkaNode.new
        { id := "n1", peers := ["n2", "n3"], msg_id := 0 } =
      Kafka.divCeil 3 2 + 1 := by decide

/-- C1 (amended): for an initialized node in a cluster of N ≥ 1 nodes
(`peers` has N - 1 elements), `KafkaNode::quorum` returns `⌊N/2⌋ + 1` — the
smallest strict majority, equal to `⌈(N-1)/2⌉ + 1` — which is 1 for N = 1,
2 for N = 3 and 3 for N = 5. -/
theorem quorum_eq_majority (st : Kafka.KafkaNode) (node : Node) (N : Nat)
    (hN : 1 ≤ N) (hpeers : node.peers.length = N - 1) :
    st.quorum node = N / 2 + 1 := by
  unfold Kafka.KafkaNode.quorum Kafka.divCeil
  rw [hpeers]
  by_cases h : (N - 1) % 2 = 0 <;> simp [h] <;> omega

/-- C1 witness: the amended formula instantiated at N = 3 gives quorum 2. -/
theorem quorum_eq_majority_witness :
    Kafka.KafkaNode.quorum Kafka.KafkaNode.new
      { id := "n1", peers := ["n2", "n3"], msg_id := 0 } = 3 / 2 + 1 :=
  quorum_eq_majority Kafka.KafkaNode.new
    { id := "n1", peers := ["n2", "n3"], msg_id := 0 } 3 (by decide) (by decide)

/-! ## C3: grow-only counter init -/

/-- C3 (code bug): handling an `init` message on the grow-only counter
handler leaves `counters` empty — the `Init` arm never calls `KV::init`,
the function that would pre-populate a `{version: 0, value: 0}` entry for
every cluster node (as the sibling `main.rs` implementation does). -/
theorem gcounter_init_not_prepopulated :
    (GCounter.GrowOnlyCounterNode.handle_init_msg GCounter.GrowOnlyCounterNode.new
        Node.new "c1" 1 "n1" ["n1", "n2", "n3"]).2.1.kv.counters = [] ∧
    alGet (GCounter.GrowOnlyCounterNode.handle_init_msg GCounter.GrowOnlyCounterNode.new
        Node.new "c1" 1 "n1" ["n1", "n2", "n3"]).2.1.kv.counters "n1" = none ∧
    (GCounter.KV.init GCounter.KV.new ["n1", "n2", "n3"]).counters =
      [("n1", GCounter.Counter.default), ("n2", GCounter.Counter.default),
       ("n3", GCounter.Counter.default)] := by decide

/-! ## C7: handlers and panics -/

/-- C7 (code bug): the TARCT txn handler reaches `unreachable!` — a panic,
modelled as `none` — on a txn whose op string is neither `"r"` nor `"w"`,
while the TARUT handler silently skips such an op; so the claim that no
handler signals failure by exception fails on the TARCT handler. -/
theorem tarct_unknown_op_panics :
    Tarct.TarctNode.handle_tx Tarct.TarctNode.new
        { id := "n1", peers := ["n2"], msg_id := 0 } "c1" 7 [("x", 0, none)] = none ∧
    Tarut.TarutNode.process_txn Tarut.TarutNode.new [("x", 0, none)] =
      ([], Tarut.TarutNode.new) := by decide

/-! ## C8: committed offsets -/

theorem MLog.commit_le (l : MLog.Log) (off : Nat) :
    l.committed ≤ (l.commit off).committed := by
  unfold MLog.Log.commit
  split <;> simp <;> omega

theorem committedL_commitStep (inn : List (String × MLog.Log)) (p : String × Nat)
    (k : String) : MLog.committedL inn k ≤ MLog.committedL (MLog.commitStep inn p) k := by
  unfold MLog.commitStep
  cases hg : alGet inn p.1 with
  | none => exact Nat.le_refl _
  | some l =>
    by_cases hk : p.1 = k
    · subst hk
      unfold MLog.committedL
      rw [alGet_alInsert_self, hg]
      exact MLog.commit_le l p.2
    · unfold MLog.committedL
      rw [alGet_alInsert_ne _ _ _ _ hk]

theorem committedL_fold (m : List (String × Nat)) (inn : List (String × MLog.Log))
    (k : String) :
    MLog.committedL inn k ≤ MLog.committedL (m.foldl MLog.commitStep inn) k := by
  induction m generalizing inn with
  | nil => exact Nat.le_refl _
  | cons p rest ih =>
    exact Nat.le_trans (committedL_commitStep inn p k) (ih (MLog.commitStep inn p))

/-- C8 counterexample: the `kafka` workload handles `commit_offsets` through
`Log::set_commit_offsets` (lib.rs), which overwrites unconditionally:
committing offset 5 and then offset 3 for key "k" leaves 3, not
`max(5, 3) = 5`, so that committed offset is not monotone. -/
theorem commit_overwrite_cex :
    alGet ((Legacy.Log.new.set_commit_offsets [("k", 5)]).set_commit_offsets
        [("k", 3)]).commits "k" = some 3 ∧ ¬((3 : Nat) = max 5 3) := by decide

/-- C8 (amended): in the per-key log used by the single- and multi-node
kafka workloads, `Log::commit` sets `committed` to `max(current, requested)`,
and each key's committed offset is monotone non-decreasing across any
sequence of `commit_offsets` requests; the legacy `kafka` binary's
`Log::set_commit_offsets` instead overwrites the committed offset
unconditionally. -/
theorem commit_max_monotone :
    (∀ (l : MLog.Log) (off : Nat), (l.commit off).committed = max l.committed off) ∧
    (∀ (ls : MLog.Logs) (ms : List (List (String × Nat))) (k : String),
       ls.committedAt k ≤ (ms.foldl MLog.Logs.commit_offsets ls).committedAt k) := by
  constructor
  · intro l off
    unfold MLog.Log.commit
    split <;> simp <;> omega
  · intro ls ms k
    induction ms generalizing ls with
    | nil => exact Nat.le_refl _
    | cons m rest ih =>
      refine Nat.le_trans ?_ (ih (ls.commit_offsets m))
      unfold MLog.Logs.committedAt MLog.Logs.commit_offsets
      exact committedL_fold m ls.inner k

/-! ## C5: replicate_ok idempotence and quorum -/

/-- C5: on the leader, a `replicate_ok` for an offset with a `Pending` entry
is handled idempotently per peer: a duplicate ack from a peer already in
`from` is a no-op (the state and output are unchanged); a first ack from a
new peer increments the ack count by exactly one, and exactly when that
count reaches the quorum the leader emits `send_ok` to the recorded client
and removes the `Pending` entry, while below quorum no message is emitted
and the entry is kept with the peer recorded. -/
theorem replicate_ok_idempotent_quorum (st : Kafka.KafkaNode) (node : Node)
    (src : String) (offset : Nat) (p : Kafka.Pending)
    (hp : alGet st.pendings offset = some p) :
    (src ∈ p.from_ →
       st.handle_replicate_ok node src offset = ([], st, node)) ∧
    (src ∉ p.from_ → st.quorum node ≤ p.acks + 1 →
       st.handle_replicate_ok node src offset =
         ([{ src := node.id, dest := p.client,
             body := .sendOk (node.msg_id + 1) p.client_msg_id offset }],
          { st with pendings := alRemove st.pendings offset },
          { node with msg_id := node.msg_id + 1 })) ∧
    (src ∉ p.from_ → p.acks + 1 < st.quorum node →
       st.handle_replicate_ok node src offset =
         ([], { st with pendings := alInsert st.pendings offset { p with from_ := src :: p.from_, acks := p.acks + 1 } }, node)) := by
  refine ⟨fun h1 => ?_, fun h1 h2 => ?_, fun h1 h2 => ?_⟩
  · simp [Kafka.KafkaNode.handle_replicate_ok, hp, slInsert, h1]
  · have hge : p.acks + 1 ≥ st.quorum node := h2
    simp [Kafka.KafkaNode.handle_replicate_ok, hp, slInsert, h1, hge,
      Node.next_msg_id, Node.reply]
  · have hlt : ¬p.acks + 1 ≥ st.quorum node := by omega
    simp [Kafka.KafkaNode.handle_replicate_ok, hp, slInsert, h1, hlt]

/-- C5 witness: with quorum 2 (a three-node cluster), a first ack from "n2"
on a pending offset reaches quorum: `send_ok` goes to the recorded client
and the `Pending` entry is removed. -/
theorem replicate_ok_idempotent_quorum_witness :
    Kafka.KafkaNode.handle_replicate_ok
        { leader := "n1", next_offset := 1, logs := MLog.Logs.new,
          pendings := [(0, { client := "c1", client_msg_id := 42, acks := 1,
                             from_ := ["n1"] })] }
        { id := "n1", peers := ["n2", "n3"], msg_id := 7 } "n2" 0 =
      ([{ src := "n1", dest := "c1", body := .sendOk 8 42 0 }],
       { leader := "n1", next_offset := 1, logs := MLog.Logs.new, pendings := [] },
       { id := "n1", peers := ["n2", "n3"], msg_id := 8 }) :=
  (replicate_ok_idempotent_quorum
      { leader := "n1", next_offset := 1, logs := MLog.Logs.new,
        pendings := [(0, { client := "c1", client_msg_id := 42, acks := 1,
                           from_ := ["n1"] })] }
      { id := "n1", peers := ["n2", "n3"], msg_id := 7 } "n2" 0
      { client := "c1", client_msg_id := 42, acks := 1, from_ := ["n1"] }
      (by decide)).2.1 (by decide) (by decide)

/-! ## C6: non-leader forwarding -/

/-- C6: after kafka init with a non-empty node list, the elected leader is
the lexicographic minimum of `node_ids`; every initialized node whose id
differs from it handles a client `send{key, msg}` by producing exactly one
outgoing message — a `forward_send{orig_src, orig_msg_id, key, msg}`
addressed to the leader — and no reply to the client. -/
theorem nonleader_send_forwards (st : Kafka.KafkaNode) (node : Node)
    (node_id : String) (ns : List String) (st1 : Kafka.KafkaNode) (node1 : Node)
    (hne : ns ≠ []) (hinit : st.handle_init node node_id ns = (st1, node1)) :
    (st1.leader ∈ ns ∧ ∀ x ∈ ns, strLe st1.leader x = true) ∧
    (node1.id ≠ st1.leader →
      ∀ (message : Message) (msg_id : Nat) (key : String) (msg : Nat),
        st1.handle_send node1 message msg_id key msg =
          ([{ src := node1.id, dest := st1.leader,
              body := .forwardSend (node1.msg_id + 1) message.src msg_id key msg }],
           st1, { node1 with msg_id := node1.msg_id + 1 })) := by
  have hst1 : st1 = { st with leader := (sortBy strLe ns).headD "" } := by
    have h := congrArg Prod.fst hinit
    simpa [Kafka.KafkaNode.handle_init] using h.symm
  constructor
  · rw [hst1]
    exact sortBy_headD_min strLe strLe_total strLe_trans strLe_refl ns hne ""
  · intro hneq message msg_id key msg
    unfold Kafka.KafkaNode.handle_send
    rw [if_pos hneq]
    simp [Node.next_msg_id]

/-- C6 witness: in the cluster ["n1","n2","n3"] the leader is "n1"; node
"n2" is not the leader and forwards a client send to "n1" verbatim, with no
reply to the client. -/
theorem nonleader_send_forwards_witness :
    Kafka.KafkaNode.handle_send
        { leader := "n1", next_offset := 0, logs := MLog.Logs.new, pendings := [] }
        { id := "n2", peers := ["n1", "n3"], msg_id := 0 }
        { src := "c1", dest := "n2", body := .initOk 0 0 } 42 "k1" 123 =
      ([{ src := "n2", dest := "n1", body := .forwardSend 1 "c1" 42 "k1" 123 }],
       { leader := "n1", next_offset := 0, logs := MLog.Logs.new, pendings := [] },
       { id := "n2", peers := ["n1", "n3"], msg_id := 1 }) :=
  (nonleader_send_forwards Kafka.KafkaNode.new Node.new "n2" ["n1", "n2", "n3"]
      { leader := "n1", next_offset := 0, logs := MLog.Logs.new, pendings := [] }
      { id := "n2", peers := ["n1", "n3"], msg_id := 0 }
      (by decide) (by decide)).2 (by decide)
      { src := "c1", dest := "n2", body := .initOk 0 0 } 42 "k1" 123

/-! ## C2 and C10: TARCT staging, conflict check and commit -/

theorem stage_progress (kv : Tarct.KV) (txn : List TxnOp)
    (hops : ∀ op ∈ txn, op.1 = "r" ∨ op.1 = "w") :
    ∀ rs ws res, ∃ out, Tarct.stageOps kv txn rs ws res = some out := by
  induction txn with
  | nil => intro rs ws res; exact ⟨(rs, ws, res), rfl⟩
  | cons op rest ih =>
    intro rs ws res
    obtain ⟨o, k, v⟩ := op
    have hrest : ∀ op ∈ rest, op.1 = "r" ∨ op.1 = "w" :=
      fun op hop => hops op (List.mem_cons_of_mem _ hop)
    rcases hops (o, k, v) (List.mem_cons_self _ _) with ho | ho
    · simp only at ho
      subst ho
      simp only [Tarct.stageOps, if_pos rfl]
      exact (ih hrest) _ _ _
    · simp only at ho
      subst ho
      simp only [Tarct.stageOps, if_true]
      exact (ih hrest) _ _ _

theorem stage_readset (kv : Tarct.KV) (txn : List TxnOp) :
    ∀ rs ws res rs1 ws1 res1,
      Tarct.stageOps kv txn rs ws res = some (rs1, ws1, res1) →
      (∀ p ∈ rs, p.2 = kv.version p.1) → ∀ p ∈ rs1, p.2 = kv.version p.1 := by
  induction txn with
  | nil =>
    intro rs ws res rs1 ws1 res1 h hinv
    simp only [Tarct.stageOps, Option.some.injEq, Prod.mk.injEq] at h
    obtain ⟨h1, _, _⟩ := h
    subst h1
    exact hinv
  | cons op rest ih =>
    intro rs ws res rs1 ws1 res1 h hinv
    obtain ⟨o, k, v⟩ := op
    by_cases ho : o = "r"
    · subst ho
      simp only [Tarct.stageOps, if_pos rfl] at h
      refine ih _ _ _ _ _ _ h ?_
      intro p hp
      rcases mem_alInsert _ _ _ p hp with rfl | hmem
      · rfl
      · exact hinv p hmem
    · by_cases hw : o = "w"
      · subst hw
        simp only [Tarct.stageOps, if_true] at h
        exact ih _ _ _ _ _ _ h hinv
      · simp only [Tarct.stageOps, if_neg ho, if_neg hw] at h
        cases h

theorem replicaStep_fold_mem (ops : List TarctOp) :
    ∀ (l : List String) (acc : List Message × Node) (m : Message),
      m ∈ (l.foldl (Tarct.replicaStep ops) acc).1 →
      m ∈ acc.1 ∨ m.body.isTarctReplicate = true := by
  intro l
  induction l with
  | nil => intro acc m hm; exact Or.inl hm
  | cons peer rest ih =>
    intro acc m hm
    rcases ih (Tarct.replicaStep ops acc peer) m hm with hmem | hbody
    · unfold Tarct.replicaStep at hmem
      simp only [Node.next_msg_id] at hmem
      rcases List.mem_append.mp hmem with h1 | h1
      · exact Or.inl h1
      · simp only [List.mem_singleton] at h1
        subst h1
        exact Or.inr rfl
    · exact Or.inr hbody

theorem sendReplicas_bodies (ops : List TarctOp) (node : Node) (m : Message)
    (hm : m ∈ (Tarct.sendReplicas ops node).1) : m.body.isTarctReplicate = true := by
  rcases replicaStep_fold_mem ops node.peers ([], node) m hm with h | h
  · simp at h
  · exact h

theorem not_error_of_tarct_replicate (b : MessageBody)
    (h : b.isTarctReplicate = true) : b.isError = false := by
  cases b <;> simp [MessageBody.isTarctReplicate, MessageBody.isError] at *

theorem commitPhase_ok_shape (st : Tarct.TarctNode) (node : Node) (src : String)
    (msg_id : Nat) (rs : List (Nat × Nat)) (ws : List (Nat × Option Nat))
    (res : List TxnOp)
    (hall : rs.all (fun p => st.kv.version p.1 = p.2) = true) :
    ∃ replicas st1 node1 mid,
      Tarct.commitPhase st node src msg_id rs ws res =
        (replicas ++ [{ src := node.id, dest := src, body := .txnOk mid msg_id res }],
         st1, node1) ∧
      ∀ m ∈ replicas, m.body.isTarctReplicate = true := by
  unfold Tarct.commitPhase
  rw [if_pos hall]
  by_cases hw : ws ≠ []
  · rw [if_pos hw]
    refine ⟨_, _, _, _, rfl, ?_⟩
    intro m hm
    exact sendReplicas_bodies _ node m hm
  · rw [if_neg hw]
    exact ⟨[], st, _, _, rfl, by intro m hm; simp at hm⟩

/-- C2: when the optimistic conflict check on the staged read set fails
(some read key's recorded version differs from the current committed
version), the TARCT commit phase replies with exactly one `error` body
carrying code `TxnConflict` (wire code 30) and a text, leaves the store
(`kv.entries`, `kv.versions`) and `commit_ts` unchanged, and emits no
`tarct_replicate` message. The property is stated on the phase taking the
staged read/write sets, since within a single handler invocation staging
itself can never produce a failing check (the C10 theorem). -/
theorem tarct_conflict_abort (st : Tarct.TarctNode) (node : Node) (src : String)
    (msg_id : Nat) (read_set : List (Nat × Nat)) (write_set : List (Nat × Option Nat))
    (results : List TxnOp)
    (hconflict : ∃ p ∈ read_set, st.kv.version p.1 ≠ p.2) :
    Tarct.commitPhase st node src msg_id read_set write_set results =
      ([{ src := node.id, dest := src,
          body := .error (node.msg_id + 1) msg_id .txnConflict
            (some "Transaction aborted. Conflict detected") none }],
       st, { node with msg_id := node.msg_id + 1 }) ∧
    ErrorCode.code .txnConflict = 30 := by
  have hall : ¬read_set.all (fun p => st.kv.version p.1 = p.2) = true := by
    simp only [List.all_eq_true]
    push_neg
    obtain ⟨p, hmem, hne⟩ := hconflict
    exact ⟨p, hmem, by simpa using hne⟩
  refine ⟨?_, rfl⟩
  simp [Tarct.commitPhase, hall, Node.next_msg_id]

/-- C2 witness: a staged read of key 1 at version 3 conflicts with a store
whose committed version of key 1 is 5; the phase emits exactly the single
TxnConflict error (wire code 30) and leaves state untouched. -/
theorem tarct_conflict_abort_witness :
    Tarct.commitPhase
        { kv := { entries := [(1, some 100)], versions := [(1, 5)] }, commit_ts := 5 }
        { id := "n1", peers := ["n2"], msg_id := 0 } "c1" 7 [(1, 3)] [(1, some 200)]
        [("r", 1, some 100), ("w", 1, some 200)] =
      ([{ src := "n1", dest := "c1",
          body := .error 1 7 .txnConflict
            (some "Transaction aborted. Conflict detected") none }],
       { kv := { entries := [(1, some 100)], versions := [(1, 5)] }, commit_ts := 5 },
       { id := "n1", peers := ["n2"], msg_id := 1 }) ∧
    ErrorCode.code .txnConflict = 30 :=
  tarct_conflict_abort
    { kv := { entries := [(1, some 100)], versions := [(1, 5)] }, commit_ts := 5 }
    { id := "n1", peers := ["n2"], msg_id := 0 } "c1" 7 [(1, 3)] [(1, some 200)]
    [("r", 1, some 100), ("w", 1, some 200)] (by decide)

/-- C10: within a single TARCT handler invocation the conflict-abort branch
is unreachable: the committed store is not mutated between recording the
read versions and the conflict check (writes go only to the staged write
set), so every txn request whose ops are all "r" or "w" is handled without
panic, emits no error reply, and ends with a `txn_ok` reply to the
requesting client. -/
theorem tarct_conflict_branch_unreachable (st : Tarct.TarctNode) (node : Node)
    (src : String) (msg_id : Nat) (txn : List TxnOp)
    (hops : ∀ op ∈ txn, op.1 = "r" ∨ op.1 = "w") :
    ∃ msgs st1 node1,
      st.handle_tx node src msg_id txn = some (msgs, st1, node1) ∧
      msgs.all (fun m => !m.body.isError) = true ∧
      (∃ last, msgs.getLast? = some last ∧ last.dest = src ∧
        last.body.isTxnOk = true) := by
  obtain ⟨⟨rs, ws, res⟩, hstage⟩ := stage_progress st.kv txn hops [] [] []
  have hrs : ∀ p ∈ rs, p.2 = st.kv.version p.1 :=
    stage_readset st.kv txn [] [] [] rs ws res hstage (by intro p hp; simp at hp)
  have hall : rs.all (fun p => st.kv.version p.1 = p.2) = true := by
    simp only [List.all_eq_true]
    intro p hp
    simp [(hrs p hp).symm]
  obtain ⟨replicas, st1, node1, mid, heq, hrep⟩ :=
    commitPhase_ok_shape st node src msg_id rs ws res hall
  refine ⟨replicas ++ [{ src := node.id, dest := src, body := .txnOk mid msg_id res }],
    st1, node1, ?_, ?_, ?_⟩
  · unfold Tarct.TarctNode.handle_tx
    rw [hstage]
    exact congrArg some heq
  · simp only [List.all_eq_true, List.mem_append]
    rintro m (hm | hm)
    · simp [not_error_of_tarct_replicate m.body (hrep m hm)]
    · simp only [List.mem_singleton] at hm
      subst hm
      simp [MessageBody.isError]
  · refine ⟨_, List.getLast?_concat _, rfl, rfl⟩

/-- C10 witness: a txn with one read and one write succeeds: no error reply
and a final `txn_ok` to the client. -/
theorem tarct_conflict_branch_unreachable_witness :
    ∃ msgs st1 node1,
      Tarct.TarctNode.handle_tx Tarct.TarctNode.new
          { id := "n1", peers := ["n2"], msg_id := 0 } "c1" 7
          [("r", 1, none), ("w", 2, some 5)] = some (msgs, st1, node1) ∧
      msgs.all (fun m => !m.body.isError) = true ∧
      (∃ last, msgs.getLast? = some last ∧ last.dest = "c1" ∧
        last.body.isTxnOk = true) :=
  tarct_conflict_branch_unreachable Tarct.TarctNode.new
    { id := "n1", peers := ["n2"], msg_id := 0 } "c1" 7
    [("r", 1, none), ("w", 2, some 5)] (by decide)

/-! ## C4: gossip tick and believed-known sets -/

theorem gossipStep_peer_seen (acc : List Message × MNBroadcast.MultiNodeBroadcastNode × Node)
    (peer : String) :
    (MNBroadcast.gossipStep acc peer).2.1.peer_seen =
      (alGetOrInsert acc.2.1.peer_seen peer []).2 := by
  unfold MNBroadcast.gossipStep
  dsimp only
  split <;> rfl

theorem gossip_fold_seen (l : List String)
    (acc : List Message × MNBroadcast.MultiNodeBroadcastNode × Node) :
    ((l.foldl MNBroadcast.gossipStep acc).2.1).peer_seen =
      l.foldl (fun ps q => (alGetOrInsert ps q []).2) acc.2.1.peer_seen := by
  induction l generalizing acc with
  | nil => rfl
  | cons q rest ih =>
    simp only [List.foldl_cons]
    rw [ih, gossipStep_peer_seen]

theorem orIns_fold_lookup (l : List String) (ps : List (String × List Nat)) (p : String) :
    alGet (l.foldl (fun ps q => (alGetOrInsert ps q []).2) ps) p =
      if p ∈ l then some ((alGet ps p).getD []) else alGet ps p := by
  induction l generalizing ps with
  | nil => simp
  | cons q rest ih =>
    simp only [List.foldl_cons]
    rw [ih]
    by_cases hq : q = p
    · subst hq
      by_cases hmem : q ∈ rest
      · simp [hmem, alGet_alGetOrInsert]
      · simp [hmem, alGet_alGetOrInsert]
    · have hq2 : ¬p = q := fun h => hq h.symm
      by_cases hmem : p ∈ rest
      · simp [hmem, hq, hq2, alGet_alGetOrInsert, List.mem_cons]
      · simp [hmem, hq, hq2, alGet_alGetOrInsert, List.mem_cons]

theorem slfold_mem (l : List Nat) (acc : List Nat × List Nat) (x : Nat)
    (hx : x ∈ l ∨ x ∈ acc.2) :
    x ∈ (l.foldl
          (fun (acc : List Nat × List Nat) m => ((slInsert acc.1 m).2, (slInsert acc.2 m).2))
          acc).2 := by
  induction l generalizing acc with
  | nil =>
    rcases hx with hx | hx
    · simp at hx
    · simpa using hx
  | cons y ys ih =>
    simp only [List.foldl_cons]
    apply ih
    rcases hx with hx | hx
    · rcases List.mem_cons.mp hx with rfl | h2
      · exact Or.inr ((mem_slInsert _ _ _).mpr (Or.inl rfl))
      · exact Or.inl h2
    · exact Or.inr ((mem_slInsert _ _ _).mpr (Or.inr hx))

/-- C4 counterexample: a node holding message 42, with gossip peer "n2" and
no believed-known entries, sends the delta [42] to "n2" on one periodic
tick, yet the post-tick believed-known set for "n2" is empty: the ids sent
in the delta are not contained in `believed_known["n2"]`. -/
theorem broadcast_gossip_cex :
    (MNBroadcast.MultiNodeBroadcastNode.gossip
        { messages := [42], gossip_peers := ["n2"], peer_seen := [] }
        { id := "n1", peers := ["n2", "n3"], msg_id := 0 }).1 =
      [{ src := "n1", dest := "n2", body := .broadcastGossip 1 [42] }] ∧
    alGet (MNBroadcast.MultiNodeBroadcastNode.gossip
        { messages := [42], gossip_peers := ["n2"], peer_seen := [] }
        { id := "n1", peers := ["n2", "n3"], msg_id := 0 }).2.1.peer_seen "n2" =
      some [] ∧
    ¬(42 ∈ ([] : List Nat)) := by decide

/-- C4 (amended): a periodic gossip tick sends each gossip neighbor the
delta of the message set against `believed_known[p]` but leaves
`believed_known[p]` unchanged (merely creating an empty entry when absent);
message ids enter `believed_known[p]` only when a `broadcast_gossip` is
received from p, whose ids are all recorded there. -/
theorem broadcast_believed_known :
    (∀ (st : MNBroadcast.MultiNodeBroadcastNode) (node : Node) (p : String),
       node.id ≠ "" → st.gossip_peers ≠ [] → st.messages ≠ [] →
       p ∈ st.gossip_peers →
       alGet (st.gossip node).2.1.peer_seen p = some ((alGet st.peer_seen p).getD [])) ∧
    (∀ (st : MNBroadcast.MultiNodeBroadcastNode) (peer : String) (msgs : List Nat)
       (m : Nat), m ∈ msgs →
       ∃ s, alGet (st.handle_broadcast_gossip_from peer msgs).peer_seen peer = some s ∧
         m ∈ s) := by
  constructor
  · intro st node p h1 h2 h3 hp
    unfold MNBroadcast.MultiNodeBroadcastNode.gossip
    rw [if_neg (by simp [h1, h2, h3])]
    rw [gossip_fold_seen, orIns_fold_lookup]
    simp [hp]
  · intro st peer msgs m hm
    unfold MNBroadcast.MultiNodeBroadcastNode.handle_broadcast_gossip_from
    dsimp only
    refine ⟨_, alGet_alInsert_self _ _ _, ?_⟩
    exact slfold_mem msgs _ m (Or.inl hm)

/-- C4 witness for the amended theorem: on the concrete tick of the
counterexample state, the post-tick believed-known set of "n2" equals its
(defaulted, empty) pre-tick value. -/
theorem broadcast_believed_known_witness :
    alGet ((MNBroadcast.MultiNodeBroadcastNode.gossip
        { messages := [42], gossip_peers := ["n2"], peer_seen := [] }
        { id := "n1", peers := ["n2", "n3"], msg_id := 0 }).2.1).peer_seen "n2" =
      some ((alGet ([] : List (String × List Nat)) "n2").getD []) :=
  broadcast_believed_known.1
    { messages := [42], gossip_peers := ["n2"], peer_seen := [] }
    { id := "n1", peers := ["n2", "n3"], msg_id := 0 } "n2"
    (by decide) (by decide) (by decide) (by decide)

/-! ## C9: unique-id generation -/

theorem mkId_eq_add (ts nb s : Nat) (hnb : nb < 2 ^ 10) (hs : s < 2 ^ 12) :
    UniqueIds.mkId ts nb s = ts * 2 ^ 22 + (nb * 2 ^ 12 + s) := by
  have hlt : 2 ^ 12 * nb + s < 2 ^ 22 := by
    have e10 : (2 : Nat) ^ 10 = 1024 := by norm_num
    have e12 : (2 : Nat) ^ 12 = 4096 := by norm_num
    have e22 : (2 : Nat) ^ 22 = 4194304 := by norm_num
    rw [e12, e22]
    rw [e10] at hnb
    rw [e12] at hs
    omega
  have e1 : nb * 2 ^ 12 ||| s = nb * 2 ^ 12 + s := by
    rw [Nat.mul_comm nb (2 ^ 12)]
    exact (Nat.mul_add_lt_is_or hs nb).symm
  have e2 : ts * 2 ^ 22 ||| (nb * 2 ^ 12 + s) = ts * 2 ^ 22 + (nb * 2 ^ 12 + s) := by
    rw [Nat.mul_comm ts (2 ^ 22), Nat.mul_comm nb (2 ^ 12)]
    exact (Nat.mul_add_lt_is_or hlt ts).symm
  unfold UniqueIds.mkId UniqueIds.NODE_BITS UniqueIds.SEQ_BITS
  rw [Nat.shiftLeft_eq, Nat.shiftLeft_eq, Nat.lor_assoc]
  show ts * 2 ^ 22 ||| (nb * 2 ^ 12 ||| s) = ts * 2 ^ 22 + (nb * 2 ^ 12 + s)
  rw [e1, e2]

theorem mkId_inj (ts1 nb1 s1 ts2 nb2 s2 : Nat) (hnb1 : nb1 < 2 ^ 10)
    (hs1 : s1 < 2 ^ 12) (hnb2 : nb2 < 2 ^ 10) (hs2 : s2 < 2 ^ 12)
    (heq : UniqueIds.mkId ts1 nb1 s1 = UniqueIds.mkId ts2 nb2 s2) :
    ts1 = ts2 ∧ nb1 = nb2 ∧ s1 = s2 := by
  rw [mkId_eq_add ts1 nb1 s1 hnb1 hs1, mkId_eq_add ts2 nb2 s2 hnb2 hs2] at heq
  have e10 : (2 : Nat) ^ 10 = 1024 := by norm_num
  have e12 : (2 : Nat) ^ 12 = 4096 := by norm_num
  have e22 : (2 : Nat) ^ 22 = 4194304 := by norm_num
  rw [e12, e22] at heq
  rw [e10] at hnb1 hnb2
  rw [e12] at hs1 hs2
  omega

theorem generate_same_ms (nb ts s t : Nat) (hts : ts = t &&& UniqueIds.TIME_MASK) :
    UniqueIds.IdGen.generate ⟨nb, ts, s⟩ t =
      (UniqueIds.mkId ts nb ((s + 1) % 2 ^ 16), ⟨nb, ts, (s + 1) % 2 ^ 16⟩) := by
  subst hts
  unfold UniqueIds.IdGen.generate
  simp

theorem idsAfterBurst_same_ms (t : Nat) : ∀ (n k nb s : Nat), k < n →
    (UniqueIds.idsAfterBurst ⟨nb, t &&& UniqueIds.TIME_MASK, s⟩ t n).getD k 0 =
      UniqueIds.mkId (t &&& UniqueIds.TIME_MASK) nb ((s + k + 1) % 2 ^ 16) := by
  intro n
  induction n with
  | zero => intro k nb s hk; omega
  | succ n ih =>
    intro k nb s hk
    rw [UniqueIds.idsAfterBurst, generate_same_ms nb _ s t rfl]
    cases k with
    | zero => simp
    | succ k =>
      simp only [List.getD_cons_succ]
      rw [ih k nb ((s + 1) % 2 ^ 16) (by omega)]
      congr 1
      have e16 : (2 : Nat) ^ 16 = 65536 := by norm_num
      rw [e16]
      omega

theorem idsAfterBurst_fresh (g : UniqueIds.IdGen) (t n k : Nat)
    (hfresh : g.last_ms ≠ t &&& UniqueIds.TIME_MASK) (hk : k < n) :
    (UniqueIds.idsAfterBurst g t n).getD k 0 =
      UniqueIds.mkId (t &&& UniqueIds.TIME_MASK) g.node_bits (k % 2 ^ 16) := by
  cases n with
  | zero => omega
  | succ n =>
    have hgen : g.generate t =
        (UniqueIds.mkId (t &&& UniqueIds.TIME_MASK) g.node_bits 0,
         ⟨g.node_bits, t &&& UniqueIds.TIME_MASK, 0⟩) := by
      unfold UniqueIds.IdGen.generate
      rw [if_neg (fun h => hfresh h.symm)]
    rw [UniqueIds.idsAfterBurst, hgen]
    cases k with
    | zero => simp
    | succ k =>
      simp only [List.getD_cons_succ]
      rw [idsAfterBurst_same_ms t n k g.node_bits 0 (by omega)]
      congr 1
      have e16 : (2 : Nat) ^ 16 = 65536 := by norm_num
      rw [e16]
      omega

/-- C9 counterexample: on a node whose masked 10-bit hash is 1, a burst of
4097 generate calls within the same wall-clock millisecond returns the same
id on the 1st and the 4097th call: the `u16` sequence is never masked to
`SEQ_BITS` bits, so at seq = 4096 it bleeds into the node-hash field
(`(1 << 12) | 4096 = (1 << 12) | 0`). -/
theorem generate_same_ms_collision_cex :
    (UniqueIds.idsAfterBurst (UniqueIds.IdGen.new 1) 1 4097).getD 0 0 =
      (UniqueIds.idsAfterBurst (UniqueIds.IdGen.new 1) 1 4097).getD 4096 0 ∧
    (0 : Nat) ≠ 4096 := by
  constructor
  · rw [idsAfterBurst_fresh (UniqueIds.IdGen.new 1) 1 4097 0 (by decide) (by decide),
      idsAfterBurst_fresh (UniqueIds.IdGen.new 1) 1 4097 4096 (by decide) (by decide)]
    decide
  · decide

/-- C9 (amended): the id layout is injective on (timestamp, node-hash,
sequence) triples within their declared bit widths; consequently any two of
at most 4096 generate calls made by one node within a single fresh
millisecond return distinct ids, and ids of two nodes handled in the same
run differ whenever their masked 10-bit node hashes differ. Beyond 4096
same-millisecond calls (or on a 10-bit hash collision between node ids,
the hash being supplied by the external xxhash crate) ids can repeat. -/
theorem uniqueids_bounded_distinct :
    (∀ ts1 nb1 s1 ts2 nb2 s2 : Nat, nb1 < 2 ^ 10 → s1 < 2 ^ 12 →
       nb2 < 2 ^ 10 → s2 < 2 ^ 12 →
       UniqueIds.mkId ts1 nb1 s1 = UniqueIds.mkId ts2 nb2 s2 →
       ts1 = ts2 ∧ nb1 = nb2 ∧ s1 = s2) ∧
    (∀ (g : UniqueIds.IdGen) (t n i j : Nat), g.node_bits < 2 ^ 10 →
       g.last_ms ≠ t &&& UniqueIds.TIME_MASK → n ≤ 2 ^ 12 → i < j → j < n →
       (UniqueIds.idsAfterBurst g t n).getD i 0 ≠
         (UniqueIds.idsAfterBurst g t n).getD j 0) := by
  constructor
  · intro ts1 nb1 s1 ts2 nb2 s2 hnb1 hs1 hnb2 hs2 heq
    exact mkId_inj ts1 nb1 s1 ts2 nb2 s2 hnb1 hs1 hnb2 hs2 heq
  · intro g t n i j hnb hfresh hn hij hjn
    rw [idsAfterBurst_fresh g t n i hfresh (by omega),
      idsAfterBurst_fresh g t n j hfresh hjn]
    intro heq
    have hi : i % 2 ^ 16 = i := Nat.mod_eq_of_lt (by norm_num; omega)
    have hj : j % 2 ^ 16 = j := Nat.mod_eq_of_lt (by norm_num; omega)
    rw [hi, hj] at heq
    obtain ⟨-, -, hs⟩ :=
      mkId_inj _ _ i _ _ j hnb (by omega) hnb (by omega) heq
    omega

/-- C9 witness for the amended theorem: two same-millisecond calls on a
fresh generator return distinct ids. -/
theorem uniqueids_bounded_distinct_witness :
    (UniqueIds.idsAfterBurst (UniqueIds.IdGen.new 5) 7 3).getD 0 0 ≠
      (UniqueIds.idsAfterBurst (UniqueIds.IdGen.new 5) 7 3).getD 1 0 :=
  uniqueids_bounded_distinct.2 (UniqueIds.IdGen.new 5) 7 3 0 1
    (by decide) (by decide) (by decide) (by decide) (by decide)

end GlomeRs
